import Mathlib

/-!
Verification of the discovery-engine core of a repository-scraping pipeline:
query batching and paginated search with cross-batch deduplication
(src/github.py), bounded-concurrency readme enrichment (src/github.py), and a
TTL deduplication cache (src/cache.py).

Modelling conventions (shallow embedding):
- The HTTP search provider is an oracle `pages : Option (List String) → Nat →
  List ApiItem`, mapping the keyword group of the query and a 1-based page
  index to the JSON `items` array of that page.
- Network effects are instrumented as an explicit list of `Request` values,
  one per `client.get` call executed by the code path.
- Python exceptions are modelled with `Except PyErr`; an uncaught exception is
  an `Except.error` result.
- Calendar dates are modelled by their ordinal day number (an integer, as in
  Python `date.toordinal`): under that encoding `date.fromisoformat` of a
  stored value is the identity, date comparison is integer comparison and
  `timedelta(days=n)` subtraction is integer subtraction.
- The filesystem is a partial map from path to content; cache persistence is
  modelled as the trace of filesystem operations the code performs.
-/

/-- One Python exception class relevant to the embedded code paths. -/
inductive PyErr
  | runtimeError
  | jsonDecodeError
  | keyError
  | binasciiError
deriving DecidableEq, Repr

/-- One HTTP request issued through the client. -/
inductive Request
  | searchPage (page : Nat)
  | readme (fullName : String)
deriving DecidableEq, Repr

/-- A repository record (dataclass Repository in src/github.py). -/
structure Repository where
  full_name : String
  url : String
  description : String
  stars : Nat
  language : String
  topics : List String
  is_fork : Bool := false
  readme : String := ""
deriving DecidableEq, Repr

/-- One JSON item of a search response: mandatory full_name, html_url and
stargazers_count, the remaining fields optional as the API may omit them or
send null. -/
structure ApiItem where
  full_name : String
  html_url : String
  description : Option String
  stargazers_count : Nat
  language : Option String
  topics : Option (List String)
  fork : Option Bool
deriving DecidableEq, Repr

/-- Repository.from_api (src/github.py lines 23-34): absent or null optional
fields default to empty string, empty list, or false. -/
def Repository.from_api (data : ApiItem) : Repository :=
  { full_name := data.full_name
    url := data.html_url
    description := data.description.getD ""
    stars := data.stargazers_count
    language := data.language.getD ""
    topics := data.topics.getD []
    is_fork := data.fork.getD false }

/-- The while-loop of AsyncGitHubClient._search_repos_single (src/github.py
lines 253-281; the sync client at lines 114-142 is identical): accumulate
converted items page by page, stopping when the accumulator reaches maxRepos,
a page has no items, or the page counter would pass 10. Returns the
accumulated repositories together with the log of page requests issued. -/
def searchLoop (pages : Nat → List ApiItem) (maxRepos : Nat)
    (repos : List Repository) (reqs : List Request) (page : Nat) :
    List Repository × List Request :=
  if repos.length < maxRepos then
    let items := pages page
    let reqs2 := reqs ++ [Request.searchPage page]
    if items.isEmpty then (repos, reqs2)
    else
      let newRepos := repos ++ (items.take (maxRepos - repos.length)).map Repository.from_api
      if _hp : page + 1 > 10 then (newRepos, reqs2)
      else searchLoop pages maxRepos newRepos reqs2 (page + 1)
  else (repos, reqs)
termination_by 11 - page
decreasing_by simp_wf; omega

/-- _search_repos_single: the loop started with an empty accumulator at
page 1 (per_page is fixed at 100 by the code; the oracle models the provider
honouring it, see hypotheses of the theorems). -/
def searchReposSingle (pages : Nat → List ApiItem) (maxRepos : Nat) :
    List Repository × List Request :=
  searchLoop pages maxRepos [] [] 1

/-- The batch chunking of search_repos (src/github.py lines 215-218):
keywords[i:i+6] for i in range(0, len(keywords), 6). -/
def chunk6 (kws : List String) : List (List String) :=
  if kws.isEmpty then []
  else kws.take 6 :: chunk6 (kws.drop 6)
termination_by kws.length
decreasing_by
  simp_wf
  rename_i h
  cases kws with
  | nil => simp at h
  | cons a l => simp [List.length_drop]

/-- First-occurrence deduplication by full_name with an accumulator of names
already inserted: the dict-insertion loop of search_repos (src/github.py
lines 219-226), where a repo is added only if its full_name is not yet a key,
and dict values keep insertion order. -/
def dedupeAux (seen : List String) : List Repository → List Repository
  | [] => []
  | r :: rs =>
    if r.full_name ∈ seen then dedupeAux seen rs
    else r :: dedupeAux (r.full_name :: seen) rs

/-- Deduplication of the concatenated per-batch results, first batch wins. -/
def dedupeByName (l : List Repository) : List Repository :=
  dedupeAux [] l

/-- Stable descending insertion by star count: insert r before the first
element with at most as many stars. -/
def insertStars (r : Repository) : List Repository → List Repository
  | [] => [r]
  | x :: xs => if x.stars ≤ r.stars then r :: x :: xs else x :: insertStars r xs

/-- Stable sort by star count descending: the semantics of Python
sorted(values, key=stars, reverse=True) at src/github.py line 228. -/
def sortStars (l : List Repository) : List Repository :=
  l.foldr insertStars []

/-- The per-batch search results of the batched path of search_repos, in
batch order. -/
def batchRuns (pages : Option (List String) → Nat → List ApiItem)
    (maxRepos : Nat) (kws : List String) : List (List Repository × List Request) :=
  (chunk6 kws).map (fun b => searchReposSingle (pages (some b)) maxRepos)

/-- The concatenation of the per-batch result lists, in batch order. -/
def joinedResults (pages : Option (List String) → Nat → List ApiItem)
    (maxRepos : Nat) (kws : List String) : List Repository :=
  ((batchRuns pages maxRepos kws).map Prod.fst).flatten

/-- The merged dictionary of the batched path: first-batch-wins
deduplication of the concatenated results. -/
def batchedMerge (pages : Option (List String) → Nat → List ApiItem)
    (maxRepos : Nat) (kws : List String) : List Repository :=
  dedupeByName (joinedResults pages maxRepos kws)

/-- AsyncGitHubClient.search_repos (src/github.py lines 192-231).
clientInit models whether __aenter__ has initialized self._client; the
RuntimeError is raised before any request when it has not. With more than 6
keywords the batched path merges, sorts by stars descending and truncates;
otherwise a single paginated search runs with the keywords as given. -/
def search_repos (clientInit : Bool)
    (pages : Option (List String) → Nat → List ApiItem) (maxRepos : Nat)
    (keywords : Option (List String)) :
    Except PyErr (List Repository) × List Request :=
  if ¬ clientInit then (Except.error PyErr.runtimeError, [])
  else
    match keywords with
    | some kws =>
      if 6 < kws.length then
        (Except.ok ((sortStars (batchedMerge pages maxRepos kws)).take maxRepos),
         ((batchRuns pages maxRepos kws).map Prod.snd).flatten)
      else
        let run := searchReposSingle (pages (some kws)) maxRepos
        (Except.ok run.1, run.2)
    | none =>
      let run := searchReposSingle (pages none) maxRepos
      (Except.ok run.1, run.2)

/-- The decoded body of a readme response, as far as the code inspects it:
the body may fail JSON parsing, parse to an object without a "content" key,
carry base64 that fails to decode (binascii.Error on bad padding), or decode
to a string (utf-8 decoding with errors="replace" never fails). -/
inductive ReadmeBody
  | invalidJson
  | jsonNoContent
  | jsonBadBase64
  | jsonContent (decoded : String)
deriving DecidableEq, Repr

/-- Outcome of one readme HTTP exchange: a transport-level failure
(an httpx.HTTPError subclass), or a status code with a body. -/
inductive HttpOutcome
  | transportError
  | status (code : Nat) (body : ReadmeBody)
deriving DecidableEq, Repr

/-- AsyncGitHubClient._fetch_single_readme (src/github.py lines 283-301),
the semaphore aside (its effect is modelled separately by the scheduling
relation FetchStep). Only httpx.HTTPError is caught: a transport error or the
HTTPStatusError of raise_for_status (any non-2xx status) degrades to an empty
string, and 404 returns an empty string before raise_for_status; but a body
decode failure (json.JSONDecodeError, KeyError on "content", binascii.Error)
escapes the except clause and propagates. Returns the result (or the escaped
exception) with the request log. -/
def fetch_single_readme (clientInit : Bool) (fullName : String)
    (maxChars : Nat) (resp : HttpOutcome) :
    Except PyErr (String × String) × List Request :=
  if ¬ clientInit then (Except.ok (fullName, ""), [])
  else
    (match resp with
     | HttpOutcome.transportError => Except.ok (fullName, "")
     | HttpOutcome.status code body =>
       if code = 404 then Except.ok (fullName, "")
       else if code < 200 ∨ 300 ≤ code then Except.ok (fullName, "")
       else
         match body with
         | ReadmeBody.invalidJson => Except.error PyErr.jsonDecodeError
         | ReadmeBody.jsonNoContent => Except.error PyErr.keyError
         | ReadmeBody.jsonBadBase64 => Except.error PyErr.binasciiError
         | ReadmeBody.jsonContent s => Except.ok (fullName, s.take maxChars),
     [Request.readme fullName])

/-- asyncio.gather over task results without return_exceptions: if some task
raised, the exception propagates out of gather (modelled as the first raising
task in task order), otherwise the list of results in task order. -/
def gatherEx : List (Except PyErr (String × String)) →
    Except PyErr (List (String × String))
  | [] => Except.ok []
  | Except.error e :: _ => Except.error e
  | Except.ok a :: rest => (gatherEx rest).map (fun l => a :: l)

/-- AsyncGitHubClient.fetch_readmes (src/github.py lines 303-319): one task
per input repository, gathered; the resulting pairs are the entries of the
returned dict. resp maps a repository full_name to its HTTP outcome. -/
def fetch_readmes (clientInit : Bool) (repos : List Repository)
    (maxChars : Nat) (resp : String → HttpOutcome) :
    Except PyErr (List (String × String)) × List Request :=
  let runs := repos.map
    (fun r => fetch_single_readme clientInit r.full_name maxChars (resp r.full_name))
  (gatherEx (runs.map Prod.fst), (runs.map Prod.snd).flatten)

namespace RepoCache

/-- RepoCache.prune (src/cache.py lines 31-38) with dates as ordinal day
numbers: keep exactly the entries whose stored date is at least
today - cacheDays. -/
def prune (today : Int) (cacheDays : Nat) (data : List (String × Int)) :
    List (String × Int) :=
  let cutoff := today - cacheDays
  data.filter (fun e => decide (cutoff ≤ e.2))

/-- What the constructor of RepoCache finds on disk: no file at cache_path,
a file whose content json.loads rejects, or a file parsing to a mapping. -/
inductive CacheFile
  | missing
  | corrupt
  | parsed (data : List (String × String))
deriving DecidableEq, Repr

/-- RepoCache.__init__ (src/cache.py lines 11-21): the store starts empty,
is replaced by the parsed mapping when the file exists and parses, and the
json.JSONDecodeError of unparseable content is caught, leaving the store
empty; no exception escapes in the missing or corrupt cases. -/
def load (file : CacheFile) : Except PyErr (List (String × String)) :=
  match file with
  | CacheFile.missing => Except.ok []
  | CacheFile.corrupt => Except.ok []
  | CacheFile.parsed d => Except.ok d

/-- One filesystem operation. A rename is atomic at the filesystem level;
a plain write to an existing path is not. -/
inductive FsOp
  | write (path : String) (content : String)
  | rename (src : String) (dst : String)
deriving DecidableEq, Repr

/-- Minimal JSON string escaping as json.dumps performs it on the characters
occurring here: backslash and double quote. -/
def jsonEscapeChar (c : Char) : String :=
  if c = '\\' then "\\\\"
  else if c = '"' then "\\\""
  else String.singleton c

/-- Escape a string for inclusion in a JSON document. -/
def jsonEscape (s : String) : String :=
  String.join (s.toList.map jsonEscapeChar)

/-- json.dumps(data, indent=2) for a string-to-string mapping in insertion
order. -/
def dumps (data : List (String × String)) : String :=
  match data with
  | [] => "\x7b\x7d"
  | _ =>
    "\x7b\n"
      ++ String.intercalate ",\n"
        (data.map (fun p => "  \"" ++ jsonEscape p.1 ++ "\": \"" ++ jsonEscape p.2 ++ "\""))
      ++ "\n\x7d"

/-- RepoCache.save (src/cache.py lines 40-42): a single direct
Path.write_text of the serialized full mapping to the cache path — no
temporary file, no rename. The value is the trace of filesystem operations
performed. -/
def save (cachePath : String) (data : List (String × String)) : List FsOp :=
  [FsOp.write cachePath (dumps data)]

/-- Effect of one completed filesystem operation on the path-to-content
map. -/
def applyOp (fs : String → Option String) (op : FsOp) : String → Option String :=
  match op with
  | FsOp.write p c => fun q => if q = p then some c else fs q
  | FsOp.rename src dst => fun q =>
    if q = dst then fs src else if q = src then none else fs q

/-- Effect of a completed trace of filesystem operations. -/
def applyOps (fs : String → Option String) (ops : List FsOp) :
    String → Option String :=
  ops.foldl applyOp fs

/-- A trace implements an atomic save of the target when it never writes the
target path directly: the target may only change through a rename, which the
filesystem applies atomically. -/
def atomicSave (target : String) (ops : List FsOp) : Prop :=
  ∀ op ∈ ops, ∀ c, op ≠ FsOp.write target c

/-- State of a path after a crash midway through a trace: the first i
operations completed, and if the i-th operation is a write, the crash left
that path holding only the first k characters of the content (a plain
overwriting write truncates first, then appends). -/
def crashDuringWrite (fs : String → Option String) (ops : List FsOp)
    (i k : Nat) : String → Option String :=
  let fsBefore := applyOps fs (ops.take i)
  match ops.get? i with
  | some (FsOp.write p c) => fun q => if q = p then some (c.take k) else fsBefore q
  | _ => fsBefore

end RepoCache

/-- Execution phase of one enrichment task of fetch_readmes: created but not
yet holding the semaphore, holding the semaphore with its HTTP request in
flight, or finished (semaphore released). -/
inductive TaskPhase
  | pending
  | inFlight
  | done
deriving DecidableEq, Repr

/-- Whether a task currently holds the semaphore with its fetch running. -/
def isInFlight : TaskPhase → Bool
  | TaskPhase.inFlight => true
  | _ => false

/-- Number of fetches currently in flight. -/
def inFlightCount (ps : List TaskPhase) : Nat :=
  ps.countP isInFlight

/-- One scheduler step of the enrichment tasks of fetch_readmes under
asyncio.Semaphore(N) (src/github.py lines 290, 311): a pending task may enter
its fetch only when fewer than N tasks hold the semaphore (acquire suspends
otherwise), and an in-flight task may finish, releasing the semaphore on
exiting the async-with block. Any task may be scheduled at any enabled
moment: the relation is the full nondeterministic interleaving. -/
inductive FetchStep (N : Nat) : List TaskPhase → List TaskPhase → Prop
  | acquire (l₁ l₂ : List TaskPhase)
      (hn : inFlightCount (l₁ ++ TaskPhase.pending :: l₂) < N) :
      FetchStep N (l₁ ++ TaskPhase.pending :: l₂) (l₁ ++ TaskPhase.inFlight :: l₂)
  | release (l₁ l₂ : List TaskPhase) :
      FetchStep N (l₁ ++ TaskPhase.inFlight :: l₂) (l₁ ++ TaskPhase.done :: l₂)

/-- States reachable by the enrichment scheduler from the initial state in
which every task has been created and none has started its fetch. -/
def Reaches (N : Nat) (init s : List TaskPhase) : Prop :=
  Relation.ReflTransGen (FetchStep N) init s

/-! ## Claim theorems: cache (C9, C7, C4) -/

/-- C9: loading the cache at startup yields an empty store when the cache
file is missing or its content is unparseable, and load never raises in
either case (every load outcome is a normal return). -/
theorem cacheLoad_missing_or_corrupt_yields_empty :
    (∀ f, ∃ d, RepoCache.load f = Except.ok d) ∧
    RepoCache.load RepoCache.CacheFile.missing = Except.ok [] ∧
    RepoCache.load RepoCache.CacheFile.corrupt = Except.ok [] := by
  refine ⟨fun f => ?_, rfl, rfl⟩
  cases f <;> exact ⟨_, rfl⟩

/-- C7: prune removes exactly the entries whose last-seen date is strictly
earlier than today minus the retention window, retains an entry exactly at
the cutoff boundary, and afterwards no retained entry's age exceeds the
window. -/
theorem cachePrune_cutoff_boundary_age (today : Int) (ttl : Nat)
    (data : List (String × Int)) :
    (∀ e, e ∈ RepoCache.prune today ttl data ↔ e ∈ data ∧ today - ttl ≤ e.2) ∧
    (∀ e, e ∈ data → e.2 < today - ttl → e ∉ RepoCache.prune today ttl data) ∧
    (∀ e, e ∈ data → e.2 = today - ttl → e ∈ RepoCache.prune today ttl data) ∧
    (∀ e, e ∈ RepoCache.prune today ttl data → today - e.2 ≤ ttl) := by
  have hmem : ∀ e, e ∈ RepoCache.prune today ttl data ↔ e ∈ data ∧ today - ttl ≤ e.2 := by
    intro e
    simp [RepoCache.prune, List.mem_filter]
  refine ⟨hmem, ?_, ?_, ?_⟩
  · intro e he hlt hmem2
    have := (hmem e).mp hmem2
    omega
  · intro e he heq
    exact (hmem e).mpr ⟨he, by omega⟩
  · intro e he
    have := (hmem e).mp he
    omega

/-- Witness for C7 at a concrete store: with today = 100 and a 30-day window,
the boundary entry dated 70 is retained and its age is within the window. -/
theorem cachePrune_cutoff_boundary_age_witness :
    ("bnd", (70 : Int)) ∈
      RepoCache.prune 100 30 [("old", 69), ("bnd", 70), ("new", 99)] ∧
    (100 : Int) - 70 ≤ 30 := by
  refine ⟨?_, by norm_num⟩
  exact (cachePrune_cutoff_boundary_age 100 30
    [("old", 69), ("bnd", 70), ("new", 99)]).2.2.1 ("bnd", 70) (by simp) (by norm_num)

/-- C4 counterexample: save performs a direct write to the cache path (not a
write-to-temp-then-rename), so it is not atomic, and a crash after the first
character of the write leaves the file holding a torn prefix that is neither
the previously persisted content nor the new serialization. -/
theorem cacheSave_not_atomic_counterexample :
    ¬ RepoCache.atomicSave "seen_repos.json"
        (RepoCache.save "seen_repos.json" [("a/b", "2024-01-01")]) ∧
    RepoCache.crashDuringWrite
        (fun q => if q = "seen_repos.json" then some "\x7b\x7d" else none)
        (RepoCache.save "seen_repos.json" [("a/b", "2024-01-01")]) 0 1
        "seen_repos.json" = some "\x7b" ∧
    ("\x7b" : String) ≠ "\x7b\x7d" ∧
    ("\x7b" : String) ≠ RepoCache.dumps [("a/b", "2024-01-01")] := by
  refine ⟨?_, ?_, by decide, by decide⟩
  · intro h
    exact h (RepoCache.FsOp.write "seen_repos.json"
        (RepoCache.dumps [("a/b", "2024-01-01")]))
      (by simp [RepoCache.save]) (RepoCache.dumps [("a/b", "2024-01-01")]) rfl
  · decide

/-- C4 amended: save serializes the full current mapping and overwrites any
prior persisted content, via one direct non-atomic write to the cache path. -/
theorem cacheSave_overwrites_with_full_mapping (fs : String → Option String)
    (path : String) (data : List (String × String)) :
    RepoCache.save path data = [RepoCache.FsOp.write path (RepoCache.dumps data)] ∧
    RepoCache.applyOps fs (RepoCache.save path data) path
      = some (RepoCache.dumps data) ∧
    ¬ RepoCache.atomicSave path (RepoCache.save path data) := by
  refine ⟨rfl, ?_, ?_⟩
  · simp [RepoCache.applyOps, RepoCache.applyOp, RepoCache.save]
  · intro h
    exact h (RepoCache.FsOp.write path (RepoCache.dumps data))
      (by simp [RepoCache.save]) (RepoCache.dumps data) rfl

/-! ## Claim theorems: client initialization (C10) and skip-set (C1) -/

/-- C10: calling AsyncGitHubClient.search_repos before the async context
manager has initialized the underlying HTTP client raises RuntimeError and
issues no request, for every argument combination; once initialized, the
call always returns normally. -/
theorem asyncSearch_requires_context
    (pages : Option (List String) → Nat → List ApiItem) (maxRepos : Nat)
    (keywords : Option (List String)) :
    search_repos false pages maxRepos keywords
      = (Except.error PyErr.runtimeError, []) ∧
    ∃ rs, (search_repos true pages maxRepos keywords).1 = Except.ok rs := by
  constructor
  · simp [search_repos]
  · cases keywords with
    | none => exact ⟨_, rfl⟩
    | some kws =>
      by_cases h6 : 6 < kws.length <;> simp [search_repos, h6]

/-- C1 evidence: the implemented search_repos accepts no skip-set and
performs no already-seen filtering — with a provider whose only result is
the repository named seen/repo (the one the orchestrator's skip-set holds),
the returned list still contains it. -/
theorem searchRepos_returns_already_seen_repo :
    (search_repos true
        (fun _ page =>
          if page = 1 then
            [⟨"seen/repo", "https://github.com/seen/repo", none, 5, none, none, none⟩]
          else [])
        10 none).1
      = Except.ok [{ full_name := "seen/repo", url := "https://github.com/seen/repo",
                     description := "", stars := 5, language := "", topics := [],
                     is_fork := false, readme := "" }] := by
  rw [search_repos]
  simp only [Bool.not_true, if_false, ite_false, Bool.false_eq_true, not_false_iff]
  rw [searchReposSingle, searchLoop]
  norm_num
  rw [searchLoop]
  norm_num [Repository.from_api]

/-! ## Claim theorems: readme enrichment error handling (C3) -/

/-- C3 counterexample: a fetch whose 200 response carries an unparseable
body does not map to an empty string — the json.JSONDecodeError escapes the
httpx-only except clause of _fetch_single_readme and, through
asyncio.gather, aborts the whole enrichment call. -/
theorem readmeDecodeFailure_aborts_enrichment :
    (fetch_single_readme true "x/y" 500
        (HttpOutcome.status 200 ReadmeBody.invalidJson)).1
      = Except.error PyErr.jsonDecodeError ∧
    (fetch_single_readme true "x/y" 500
        (HttpOutcome.status 200 ReadmeBody.invalidJson)).1
      ≠ Except.ok ("x/y", "") ∧
    (fetch_readmes true
        [{ full_name := "x/y", url := "u", description := "", stars := 1,
           language := "", topics := [] }] 500
        (fun _ => HttpOutcome.status 200 ReadmeBody.invalidJson)).1
      = Except.error PyErr.jsonDecodeError := by
  refine ⟨rfl, by simp [fetch_single_readme], by rfl⟩

/-- C3 amended: a not-found response and every httpx.HTTPError — transport
failure or the HTTPStatusError of any non-2xx status — degrade to an empty
string without raising; but a response-body decode failure (invalid JSON,
missing content key, invalid base64) raises out of the fetch instead of
degrading. -/
theorem fetchSingleReadme_http_failures_degrade (name : String) (mc : Nat)
    (resp : HttpOutcome)
    (h : resp = HttpOutcome.transportError ∨
         (∃ b, resp = HttpOutcome.status 404 b) ∨
         (∃ c b, resp = HttpOutcome.status c b ∧ (c < 200 ∨ 300 ≤ c))) :
    (fetch_single_readme true name mc resp).1 = Except.ok (name, "") ∧
    (fetch_single_readme true name mc
        (HttpOutcome.status 200 ReadmeBody.invalidJson)).1
      = Except.error PyErr.jsonDecodeError ∧
    (fetch_single_readme true name mc
        (HttpOutcome.status 200 ReadmeBody.jsonNoContent)).1
      = Except.error PyErr.keyError ∧
    (fetch_single_readme true name mc
        (HttpOutcome.status 200 ReadmeBody.jsonBadBase64)).1
      = Except.error PyErr.binasciiError := by
  refine ⟨?_, by simp [fetch_single_readme], by simp [fetch_single_readme],
    by simp [fetch_single_readme]⟩
  rcases h with h | ⟨b, h⟩ | ⟨c, b, h, hc⟩
  · subst h; simp [fetch_single_readme]
  · subst h; simp [fetch_single_readme]
  · subst h
    by_cases h404 : c = 404
    · subst h404; simp [fetch_single_readme]
    · have h2 : c < 200 ∨ 300 ≤ c := hc
      simp [fetch_single_readme, h404]
      intro hlt hge
      omega

/-- Witness for the amended C3 at concrete inputs: a transport error on
repository a/b degrades to the empty string. -/
theorem fetchSingleReadme_http_failures_degrade_witness :
    (fetch_single_readme true "a/b" 500 HttpOutcome.transportError).1
      = Except.ok ("a/b", "") :=
  (fetchSingleReadme_http_failures_degrade "a/b" 500 HttpOutcome.transportError
    (Or.inl rfl)).1

/-! ## Claim theorems: enrichment concurrency bound (C5) -/

/-- Counting in-flight tasks across an append and a cons. -/
theorem inFlightCount_append_cons (l₁ l₂ : List TaskPhase) (x : TaskPhase) :
    inFlightCount (l₁ ++ x :: l₂)
      = inFlightCount l₁ + inFlightCount l₂ + (if isInFlight x then 1 else 0) := by
  simp [inFlightCount, List.countP_append, List.countP_cons]
  omega

/-- C5: in every state the enrichment scheduler can reach from the initial
all-pending state, at most N fetches are in flight — the semaphore bound is
never exceeded, even transiently, whatever the interleaving. -/
theorem enrichment_concurrency_bounded (N tasks : Nat) (s : List TaskPhase)
    (h : Reaches N (List.replicate tasks TaskPhase.pending) s) :
    inFlightCount s ≤ N := by
  induction h with
  | refl =>
    simp [inFlightCount, List.countP_eq_length_filter, List.filter_replicate, isInFlight]
  | tail _ hstep ih =>
    cases hstep with
    | acquire l₁ l₂ hn =>
      rw [inFlightCount_append_cons] at hn ⊢
      simp [isInFlight] at hn ⊢
      omega
    | release l₁ l₂ =>
      rw [inFlightCount_append_cons] at ih ⊢
      simp [isInFlight] at ih ⊢
      omega

/-- Witness for C5 at the concrete instance of the spec's example: 20
created fetch tasks under bound 10 start with no more than 10 in flight. -/
theorem enrichment_concurrency_bounded_witness :
    inFlightCount (List.replicate 20 TaskPhase.pending) ≤ 10 :=
  enrichment_concurrency_bounded 10 20 (List.replicate 20 TaskPhase.pending)
    Relation.ReflTransGen.refl

/-! ## Claim theorems: enrichment result completeness (C8) -/

/-- Every normal return of _fetch_single_readme pairs the repository's own
full_name with the fetched text. -/
theorem fetch_single_fst_ok (init : Bool) (n : String) (mc : Nat)
    (o : HttpOutcome) (a : String × String)
    (h : (fetch_single_readme init n mc o).1 = Except.ok a) : a.1 = n := by
  cases init with
  | false =>
    simp [fetch_single_readme] at h
    simp [← h]
  | true =>
    cases o with
    | transportError =>
      simp [fetch_single_readme] at h
      simp [← h]
    | status code body =>
      by_cases h404 : code = 404
      · simp [fetch_single_readme, h404] at h
        simp [← h]
      · by_cases h2xx : code < 200 ∨ 300 ≤ code
        · simp [fetch_single_readme, h404, h2xx] at h
          simp [← h]
        · cases body with
          | invalidJson => simp [fetch_single_readme, h404, h2xx] at h
          | jsonNoContent => simp [fetch_single_readme, h404, h2xx] at h
          | jsonBadBase64 => simp [fetch_single_readme, h404, h2xx] at h
          | jsonContent s =>
            simp [fetch_single_readme, h404, h2xx] at h
            simp [← h]

/-- A 404 response maps the repository to the empty string, whether or not
the client field is set. -/
theorem fetch_single_404 (init : Bool) (n : String) (mc : Nat) (b : ReadmeBody) :
    (fetch_single_readme init n mc (HttpOutcome.status 404 b)).1
      = Except.ok (n, "") := by
  cases init <;> simp [fetch_single_readme]

/-- gather of a list of normal results returns exactly those results. -/
theorem gatherEx_map_ok (m : List (String × String)) :
    gatherEx (m.map Except.ok) = Except.ok m := by
  induction m with
  | nil => rfl
  | cons b bs ih => simp [gatherEx, ih, Except.map]

/-- If gather returns a result list, every task returned normally and the
results are the task values in task order. -/
theorem gatherEx_ok_elim (l : List (Except PyErr (String × String))) :
    ∀ m, gatherEx l = Except.ok m → l = m.map Except.ok := by
  induction l with
  | nil =>
    intro m h
    simp only [gatherEx] at h
    injection h with h
    subst h
    rfl
  | cons a rest ih =>
    intro m h
    cases a with
    | error e => exact Except.noConfusion h
    | ok a =>
      simp only [gatherEx] at h
      cases hrest : gatherEx rest with
      | error e => rw [hrest] at h; exact Except.noConfusion h
      | ok mtail =>
        rw [hrest] at h
        simp only [Except.map] at h
        injection h with h
        subst h
        simp [ih mtail hrest]

/-- gather returns a result list exactly when every task returned normally. -/
theorem gatherEx_ok_iff (l : List (Except PyErr (String × String)))
    (m : List (String × String)) :
    gatherEx l = Except.ok m ↔ l = m.map Except.ok := by
  constructor
  · exact gatherEx_ok_elim l m
  · intro h
    rw [h, gatherEx_map_ok]

/-- When fetch_readmes returns a mapping, its keys are exactly the input
repositories' identifiers in order, and every 404-answered repository is
mapped to the empty string with its key present. -/
theorem fetch_readmes_ok_spec (init : Bool) (mc : Nat)
    (resp : String → HttpOutcome) :
    ∀ (repos : List Repository) (m : List (String × String)),
      (fetch_readmes init repos mc resp).1 = Except.ok m →
      m.map Prod.fst = repos.map Repository.full_name ∧
      (∀ r ∈ repos, ∀ b, resp r.full_name = HttpOutcome.status 404 b →
        (r.full_name, "") ∈ m) := by
  intro repos
  induction repos with
  | nil =>
    intro m h
    simp [fetch_readmes, gatherEx] at h
    subst h
    simp
  | cons r rs ih =>
    intro m h
    simp only [fetch_readmes, List.map_cons] at h
    have hl := gatherEx_ok_elim _ m h
    cases m with
    | nil => simp at hl
    | cons a ms =>
      simp only [List.map_cons] at hl
      injection hl with h1 h2
      have ha : a.1 = r.full_name :=
        fetch_single_fst_ok init r.full_name mc (resp r.full_name) a h1
      have hms : (fetch_readmes init rs mc resp).1 = Except.ok ms := by
        simp only [fetch_readmes]
        rw [h2, gatherEx_map_ok]
      obtain ⟨ihmap, ih404⟩ := ih ms hms
      constructor
      · simp [List.map_cons, ihmap, ha]
      · intro rp hrp b hb
        rcases List.mem_cons.mp hrp with hEq | hMem
        · subst hEq
          have h404 := fetch_single_404 init rp.full_name mc b
          rw [hb] at h1
          rw [h404] at h1
          injection h1 with h1
          rw [← h1]
          exact List.mem_cons_self _ ms
        · exact List.mem_cons_of_mem a (ih404 rp hMem b hb)

/-- C8: the enrichment call on an empty input returns an empty mapping with
no network request; and whenever it returns a mapping, that mapping holds
one entry per input repository — all fetches contributed, keys are never
omitted, and a 404 readme appears as an empty-string entry under the
repository's key. -/
theorem enrichment_returns_complete_mapping (init : Bool)
    (repos : List Repository) (mc : Nat) (resp : String → HttpOutcome) :
    fetch_readmes init [] mc resp = (Except.ok [], []) ∧
    (∀ m, (fetch_readmes init repos mc resp).1 = Except.ok m →
      m.map Prod.fst = repos.map Repository.full_name ∧
      m.length = repos.length ∧
      (∀ r ∈ repos, r.full_name ∈ m.map Prod.fst) ∧
      (∀ r ∈ repos, ∀ b, resp r.full_name = HttpOutcome.status 404 b →
        (r.full_name, "") ∈ m)) := by
  refine ⟨rfl, ?_⟩
  intro m h
  obtain ⟨hmap, h404⟩ := fetch_readmes_ok_spec init mc resp repos m h
  refine ⟨hmap, ?_, ?_, h404⟩
  · have hlen := congrArg List.length hmap
    simpa using hlen
  · intro r hr
    rw [hmap]
    exact List.mem_map_of_mem Repository.full_name hr

/-- Witness for C8: a single repository answered 404 yields the mapping
with its key present and an empty-string value. -/
theorem enrichment_returns_complete_mapping_witness :
    (fetch_readmes true
        [{ full_name := "w/x", url := "u", description := "", stars := 0,
           language := "", topics := [] }] 500
        (fun _ => HttpOutcome.status 404 ReadmeBody.invalidJson)).1
      = Except.ok [("w/x", "")] ∧
    ("w/x", "") ∈ [("w/x", "")] := by
  constructor
  · rfl
  · exact ((enrichment_returns_complete_mapping true
        [{ full_name := "w/x", url := "u", description := "", stars := 0,
           language := "", topics := [] }] 500
        (fun _ => HttpOutcome.status 404 ReadmeBody.invalidJson)).2
      [("w/x", "")] rfl).2.2.2
      { full_name := "w/x", url := "u", description := "", stars := 0,
        language := "", topics := [] } (by simp) ReadmeBody.invalidJson rfl

/-! ## Claim theorems: single-batch pagination (C6) -/

/-- The accumulated result never exceeds the requested cap: the inner loop
stops appending as soon as the running total reaches it. -/
theorem searchLoop_length_le_cap (pages : Nat → List ApiItem) (maxRepos : Nat) :
    ∀ (repos : List Repository) (reqs : List Request) (page : Nat),
      repos.length ≤ maxRepos →
      (searchLoop pages maxRepos repos reqs page).1.length ≤ maxRepos := by
  intro repos reqs page
  induction repos, reqs, page using searchLoop.induct pages maxRepos with
  | case1 repos reqs page hlt items hemp =>
    intro h
    rw [searchLoop]
    have hx : pages page = [] := by simpa [items] using hemp
    simp [hlt, hx]
    exact h
  | case2 repos reqs page hlt items hemp hp =>
    intro h
    rw [searchLoop]
    have hx : ¬ pages page = [] := by simpa [items] using hemp
    simp [hlt, hx, hp, List.length_take]
    omega
  | case3 repos reqs page hlt items reqs2 hemp newRepos hp ih =>
    intro h
    rw [searchLoop]
    have hx : ¬ pages page = [] := by simpa [items] using hemp
    have ihx := ih (by simp [newRepos, items, List.length_take]; omega)
    simp [hlt, hx, hp]
    simpa [newRepos, reqs2, items] using ihx
  | case4 repos reqs page hge =>
    intro h
    rw [searchLoop]
    simp [hge]
    exact h

/-- Under the provider's fixed page size of at most 100 items per page, the
loop adds at most 100 results per remaining page and never runs past page
10, so it accumulates at most (11 - page) further pages' worth. -/
theorem searchLoop_length_le_pages (pages : Nat → List ApiItem) (maxRepos : Nat)
    (hsz : ∀ p, (pages p).length ≤ 100) :
    ∀ (repos : List Repository) (reqs : List Request) (page : Nat),
      page ≤ 10 →
      (searchLoop pages maxRepos repos reqs page).1.length
        ≤ repos.length + (11 - page) * 100 := by
  intro repos reqs page
  induction repos, reqs, page using searchLoop.induct pages maxRepos with
  | case1 repos reqs page hlt items hemp =>
    intro h10
    rw [searchLoop]
    have hx : pages page = [] := by simpa [items] using hemp
    simp [hlt, hx]
  | case2 repos reqs page hlt items hemp hp =>
    intro h10
    rw [searchLoop]
    have hx : ¬ pages page = [] := by simpa [items] using hemp
    have hsp := hsz page
    simp [hlt, hx, hp, List.length_take]
    omega
  | case3 repos reqs page hlt items reqs2 hemp newRepos hp ih =>
    intro h10
    rw [searchLoop]
    have hx : ¬ pages page = [] := by simpa [items] using hemp
    have hsp := hsz page
    have ihx := ih (by omega)
    have hnew : newRepos.length ≤ repos.length + 100 := by
      simp [newRepos, items, List.length_take]
      omega
    simp [hlt, hx, hp]
    have : (searchLoop pages maxRepos newRepos reqs2 (page + 1)).1.length
        ≤ newRepos.length + (11 - (page + 1)) * 100 := ihx
    calc (searchLoop pages maxRepos
            (repos ++ List.take (maxRepos - repos.length) (List.map Repository.from_api (pages page)))
            (reqs ++ [Request.searchPage page]) (page + 1)).1.length
        = (searchLoop pages maxRepos newRepos reqs2 (page + 1)).1.length := by
          simp [newRepos, reqs2, items]
      _ ≤ newRepos.length + (11 - (page + 1)) * 100 := ihx
      _ ≤ repos.length + (11 - page) * 100 := by omega
  | case4 repos reqs page hge =>
    intro h10
    rw [searchLoop]
    simp [hge]

/-- The loop result depends on the provider only through pages 1 to 10: the
hard page ceiling means no later page is ever requested. -/
theorem searchLoop_pages_agree (pages pages2 : Nat → List ApiItem)
    (maxRepos : Nat) (hag : ∀ p, p ≤ 10 → pages p = pages2 p) :
    ∀ (repos : List Repository) (reqs : List Request) (page : Nat),
      page ≤ 10 →
      searchLoop pages maxRepos repos reqs page
        = searchLoop pages2 maxRepos repos reqs page := by
  intro repos reqs page
  induction repos, reqs, page using searchLoop.induct pages maxRepos with
  | case1 repos reqs page hlt items hemp =>
    intro h10
    rw [searchLoop, searchLoop]
    have hx : pages page = [] := by simpa [items] using hemp
    have hx2 : pages2 page = [] := by rw [← hag page h10]; exact hx
    simp [hlt, hx, hx2]
  | case2 repos reqs page hlt items hemp hp =>
    intro h10
    rw [searchLoop, searchLoop]
    have hx : ¬ pages page = [] := by simpa [items] using hemp
    have hx2 : ¬ pages2 page = [] := by rw [← hag page h10]; exact hx
    simp [hlt, hx, hx2, hp, ← hag page h10]
  | case3 repos reqs page hlt items reqs2 hemp newRepos hp ih =>
    intro h10
    rw [searchLoop, searchLoop]
    have hx : ¬ pages page = [] := by simpa [items] using hemp
    have hx2 : ¬ pages2 page = [] := by rw [← hag page h10]; exact hx
    have ihx := ih (by omega)
    simp [hlt, hx, hx2, hp, ← hag page h10]
    simpa [newRepos, reqs2, items] using ihx
  | case4 repos reqs page hge =>
    intro h10
    rw [searchLoop, searchLoop]
    simp [hge]

/-- Every request the loop logs is for a page between 1 and 10: pagination
never asks the provider for a page past the hard ceiling. -/
theorem searchLoop_requests_bounded (pages : Nat → List ApiItem) (maxRepos : Nat) :
    ∀ (repos : List Repository) (reqs : List Request) (page : Nat),
      1 ≤ page → page ≤ 10 →
      (∀ q ∈ reqs, ∃ p, q = Request.searchPage p ∧ 1 ≤ p ∧ p ≤ 10) →
      ∀ q ∈ (searchLoop pages maxRepos repos reqs page).2,
        ∃ p, q = Request.searchPage p ∧ 1 ≤ p ∧ p ≤ 10 := by
  intro repos reqs page
  induction repos, reqs, page using searchLoop.induct pages maxRepos with
  | case1 repos reqs page hlt items hemp =>
    intro h1 h10 hreqs q hq
    rw [searchLoop] at hq
    have hx : pages page = [] := by simpa [items] using hemp
    simp [hlt, hx] at hq
    rcases hq with hq | hq
    · exact hreqs q hq
    · exact ⟨page, by simp [hq], h1, h10⟩
  | case2 repos reqs page hlt items hemp hp =>
    intro h1 h10 hreqs q hq
    rw [searchLoop] at hq
    have hx : ¬ pages page = [] := by simpa [items] using hemp
    simp [hlt, hx, hp] at hq
    rcases hq with hq | hq
    · exact hreqs q hq
    · exact ⟨page, by simp [hq], h1, h10⟩
  | case3 repos reqs page hlt items reqs2 hemp newRepos hp ih =>
    intro h1 h10 hreqs q hq
    rw [searchLoop] at hq
    have hx : ¬ pages page = [] := by simpa [items] using hemp
    simp [hlt, hx, hp] at hq
    refine ih (by omega) (by omega) ?_ q ?_
    · intro q2 hq2
      simp [reqs2] at hq2
      rcases hq2 with hq2 | hq2
      · exact hreqs q2 hq2
      · exact ⟨page, by simp [hq2], h1, h10⟩
    · simpa [newRepos, reqs2, items] using hq
  | case4 repos reqs page hge =>
    intro h1 h10 hreqs q hq
    rw [searchLoop] at hq
    simp [hge] at hq
    exact hreqs q hq

/-- C6: a single batch's pagination respects the cap, never returns more
than 100 times 10 results under the provider page-size guarantee, never
consults a page index past the hard ceiling of 10 (its outcome depends on
pages 1-10 only, and every logged request names a page in 1-10), and the
loop is total. -/
theorem singleBatch_pagination_bounds (pages pages2 : Nat → List ApiItem)
    (maxRepos : Nat) (hsz : ∀ p, (pages p).length ≤ 100)
    (hag : ∀ p, p ≤ 10 → pages p = pages2 p) :
    (searchReposSingle pages maxRepos).1.length ≤ maxRepos ∧
    (searchReposSingle pages maxRepos).1.length ≤ 1000 ∧
    searchReposSingle pages maxRepos = searchReposSingle pages2 maxRepos ∧
    (∀ q ∈ (searchReposSingle pages maxRepos).2,
      ∃ p, q = Request.searchPage p ∧ 1 ≤ p ∧ p ≤ 10) := by
  refine ⟨searchLoop_length_le_cap pages maxRepos [] [] 1 (by simp), ?_,
    searchLoop_pages_agree pages pages2 maxRepos hag [] [] 1 (by norm_num),
    searchLoop_requests_bounded pages maxRepos [] [] 1 (by norm_num)
      (by norm_num) (by simp)⟩
  have hb := searchLoop_length_le_pages pages maxRepos hsz [] [] 1 (by norm_num)
  simpa using hb

/-- Witness for C6 at a concrete provider that returns one page of one item
then nothing, with a cap of 5. -/
theorem singleBatch_pagination_bounds_witness :
    (searchReposSingle (fun _ => []) 5).1.length ≤ 5 ∧
    (searchReposSingle (fun _ => []) 5).1.length ≤ 1000 := by
  have hb := singleBatch_pagination_bounds (fun _ => []) (fun _ => []) 5
    (fun _ => by simp) (fun _ _ => rfl)
  exact ⟨hb.1, hb.2.1⟩

/-! ## Claim theorems: keyword batching and merge (C2) -/

/-- Concatenating the batches restores the original keyword list: chunking
preserves order and loses nothing. -/
theorem chunk6_flatten (kws : List String) : (chunk6 kws).flatten = kws := by
  induction kws using chunk6.induct with
  | case1 kws hemp =>
    have : kws = [] := by simpa using hemp
    subst this
    rw [chunk6]
    simp
  | case2 kws hemp ih =>
    rw [chunk6]
    simp [hemp, ih, List.take_append_drop]

/-- The number of batches is the ceiling of the keyword count over 6. -/
theorem chunk6_length (kws : List String) :
    (chunk6 kws).length = (kws.length + 5) / 6 := by
  induction kws using chunk6.induct with
  | case1 kws hemp =>
    have : kws = [] := by simpa using hemp
    subst this
    rw [chunk6]
    simp
  | case2 kws hemp ih =>
    rw [chunk6]
    have hne : kws.length ≠ 0 := by
      simpa [List.isEmpty_iff_length_eq_zero] using hemp
    simp [hemp, ih, List.length_drop]
    omega

/-- Every batch holds between 1 and 6 keywords. -/
theorem chunk6_mem_size (kws : List String) :
    ∀ b ∈ chunk6 kws, b.length ≤ 6 ∧ b ≠ [] := by
  induction kws using chunk6.induct with
  | case1 kws hemp =>
    rw [chunk6]
    simp [hemp]
  | case2 kws hemp ih =>
    rw [chunk6]
    simp only [hemp, Bool.false_eq_true, if_false]
    intro b hb
    rcases List.mem_cons.mp hb with hb | hb
    · subst hb
      have hne : ¬ kws = [] := by simpa using hemp
      constructor
      · exact List.length_take_le 6 kws
      · simp [List.take_eq_nil_iff, hne]
    · exact ih b hb

/-- Deduplication only discards elements: the result is a sublist of the
input, keeping first occurrences in order. -/
theorem dedupeAux_sublist (l : List Repository) :
    ∀ seen : List String, List.Sublist (dedupeAux seen l) l := by
  induction l with
  | nil => intro seen; simp [dedupeAux]
  | cons r rs ih =>
    intro seen
    simp only [dedupeAux]
    by_cases hm : r.full_name ∈ seen
    · simp only [hm, if_true, reduceIte]
      exact (ih seen).cons r
    · simp only [hm, if_false, reduceIte]
      exact (ih (r.full_name :: seen)).cons₂ r

/-- After deduplication no identifier occurs twice, and none of the
identifiers in the seen accumulator occurs at all. -/
theorem dedupeAux_names_nodup (l : List Repository) :
    ∀ seen : List String,
      ((dedupeAux seen l).map Repository.full_name).Nodup ∧
      ∀ r ∈ dedupeAux seen l, r.full_name ∉ seen := by
  induction l with
  | nil => intro seen; simp [dedupeAux]
  | cons r rs ih =>
    intro seen
    simp only [dedupeAux]
    by_cases hm : r.full_name ∈ seen
    · simp only [hm, if_true, reduceIte]
      exact ih seen
    · simp only [hm, if_false, reduceIte]
      obtain ⟨ihnodup, ihnotin⟩ := ih (r.full_name :: seen)
      refine ⟨?_, ?_⟩
      · rw [List.map_cons, List.nodup_cons]
        refine ⟨?_, ihnodup⟩
        intro hmem
        obtain ⟨rx, hrx, hrxn⟩ := List.mem_map.mp hmem
        exact (ihnotin rx hrx) (by simp [hrxn])
      · intro rx hrx
        rcases List.mem_cons.mp hrx with hrx | hrx
        · subst hrx; exact hm
        · intro hcon
          exact (ihnotin rx hrx) (List.mem_cons_of_mem _ hcon)

/-- First-wins semantics of the merge dictionary: for every identifier, the
deduplicated list retains exactly the first input element bearing it. -/
theorem dedupeAux_filter_name (l : List Repository) :
    ∀ (seen : List String) (n : String),
      (dedupeAux seen l).filter (fun r => decide (r.full_name = n))
        = if n ∈ seen then []
          else (l.filter (fun r => decide (r.full_name = n))).take 1 := by
  induction l with
  | nil => intro seen n; by_cases hn : n ∈ seen <;> simp [dedupeAux, hn]
  | cons r rs ih =>
    intro seen n
    simp only [dedupeAux]
    by_cases hm : r.full_name ∈ seen
    · simp only [hm, if_true, reduceIte]
      rw [ih seen n]
      by_cases hn : n ∈ seen
      · simp [hn]
      · have hrn : ¬ (r.full_name = n) := fun he => hn (he ▸ hm)
        simp [hn, List.filter_cons, hrn]
    · simp only [hm, if_false, reduceIte]
      by_cases hrn : r.full_name = n
      · have hn : n ∉ seen := by rw [← hrn]; exact hm
        have hmem : n ∈ r.full_name :: seen := by simp [hrn]
        rw [List.filter_cons, ih (r.full_name :: seen) n]
        simp [hrn, hn, hmem, List.filter_cons]
      · by_cases hn : n ∈ seen
        · have hmem2 : n ∈ r.full_name :: seen := List.mem_cons_of_mem _ hn
          rw [List.filter_cons, ih (r.full_name :: seen) n]
          simp [hn, hrn, hmem2]
        · have hmem2 : n ∉ r.full_name :: seen := by
            simp only [List.mem_cons, not_or]
            exact ⟨fun he => hrn he.symm, hn⟩
          rw [List.filter_cons, ih (r.full_name :: seen) n]
          simp [hn, hrn, hmem2, List.filter_cons]

/-- Inserting into the sorted accumulator is a permutation of consing. -/
theorem insertStars_perm (r : Repository) (l : List Repository) :
    List.Perm (insertStars r l) (r :: l) := by
  induction l with
  | nil => simp [insertStars]
  | cons x xs ih =>
    simp only [insertStars]
    by_cases hc : x.stars ≤ r.stars
    · simp [hc]
    · simp only [hc, if_false, reduceIte]
      exact List.Perm.trans (ih.cons x) (List.Perm.swap r x xs)

/-- Sorting permutes its input. -/
theorem sortStars_perm (l : List Repository) : List.Perm (sortStars l) l := by
  induction l with
  | nil => simp [sortStars]
  | cons r rs ih =>
    simp only [sortStars, List.foldr_cons]
    exact List.Perm.trans (insertStars_perm r (rs.foldr insertStars [])) (ih.cons r)

/-- Insertion preserves the star-descending ordering. -/
theorem insertStars_pairwise (r : Repository) (l : List Repository)
    (h : l.Pairwise (fun a b => b.stars ≤ a.stars)) :
    (insertStars r l).Pairwise (fun a b => b.stars ≤ a.stars) := by
  induction l with
  | nil => simp [insertStars]
  | cons x xs ih =>
    simp only [insertStars]
    obtain ⟨hx, hxs⟩ := List.pairwise_cons.mp h
    by_cases hc : x.stars ≤ r.stars
    · simp only [hc, if_true, reduceIte]
      refine List.pairwise_cons.mpr ⟨?_, h⟩
      intro y hy
      rcases List.mem_cons.mp hy with hy | hy
      · subst hy; exact hc
      · exact le_trans (hx y hy) hc
    · simp only [hc, if_false, reduceIte]
      refine List.pairwise_cons.mpr ⟨?_, ih hxs⟩
      intro y hy
      have hy2 : y ∈ r :: xs := (insertStars_perm r xs).mem_iff.mp hy
      rcases List.mem_cons.mp hy2 with hy2 | hy2
      · subst hy2; omega
      · exact hx y hy2

/-- The sorted merge result is ordered by star count descending. -/
theorem sortStars_pairwise (l : List Repository) :
    (sortStars l).Pairwise (fun a b => b.stars ≤ a.stars) := by
  induction l with
  | nil => simp [sortStars]
  | cons r rs ih =>
    simp only [sortStars, List.foldr_cons]
    exact insertStars_pairwise r (rs.foldr insertStars []) ih

/-- C2: with more than 6 keywords, search_repos runs one paginated search
per 6-keyword batch (batches cover the keyword list in its original order,
their count is the ceiling of n over 6) and returns the concatenated batch
results deduplicated by identifier with the earliest occurrence retained,
sorted by stars descending, truncated to the cap: the returned list is star
sorted, at most the cap long, free of duplicate identifiers, drawn from the
per-batch results, and for each identifier keeps exactly the first
concatenation-order occurrence before sorting. -/
theorem batchedSearch_merge_spec
    (pages : Option (List String) → Nat → List ApiItem) (maxRepos : Nat)
    (kws : List String) (h6 : 6 < kws.length) :
    (search_repos true pages maxRepos (some kws)).1
      = Except.ok ((sortStars (batchedMerge pages maxRepos kws)).take maxRepos) ∧
    (chunk6 kws).flatten = kws ∧
    (chunk6 kws).length = (kws.length + 5) / 6 ∧
    (∀ b ∈ chunk6 kws, b.length ≤ 6 ∧ b ≠ []) ∧
    (∀ n : String,
      (batchedMerge pages maxRepos kws).filter (fun r => decide (r.full_name = n))
        = ((joinedResults pages maxRepos kws).filter
            (fun r => decide (r.full_name = n))).take 1) ∧
    List.Perm (sortStars (batchedMerge pages maxRepos kws))
      (batchedMerge pages maxRepos kws) ∧
    (∀ m, (search_repos true pages maxRepos (some kws)).1 = Except.ok m →
      m.Pairwise (fun a b => b.stars ≤ a.stars) ∧
      m.length ≤ maxRepos ∧
      (m.map Repository.full_name).Nodup ∧
      ∀ r ∈ m, r ∈ joinedResults pages maxRepos kws) := by
  have heq : (search_repos true pages maxRepos (some kws)).1
      = Except.ok ((sortStars (batchedMerge pages maxRepos kws)).take maxRepos) := by
    simp [search_repos, h6]
  refine ⟨heq, chunk6_flatten kws, chunk6_length kws, chunk6_mem_size kws,
    ?_, sortStars_perm _, ?_⟩
  · intro n
    have := dedupeAux_filter_name (joinedResults pages maxRepos kws) [] n
    simpa [batchedMerge, dedupeByName] using this
  · intro m hm
    rw [heq] at hm
    injection hm with hm
    subst hm
    refine ⟨?_, ?_, ?_, ?_⟩
    · exact (sortStars_pairwise (batchedMerge pages maxRepos kws)).sublist
        (List.take_sublist maxRepos _)
    · exact List.length_take_le maxRepos _
    · have hnodup : ((batchedMerge pages maxRepos kws).map Repository.full_name).Nodup :=
        (dedupeAux_names_nodup (joinedResults pages maxRepos kws) []).1
      have hperm : List.Perm
          ((sortStars (batchedMerge pages maxRepos kws)).map Repository.full_name)
          ((batchedMerge pages maxRepos kws).map Repository.full_name) :=
        (sortStars_perm (batchedMerge pages maxRepos kws)).map Repository.full_name
      have hnodup2 : ((sortStars (batchedMerge pages maxRepos kws)).map
          Repository.full_name).Nodup := hperm.nodup_iff.mpr hnodup
      exact hnodup2.sublist ((List.take_sublist maxRepos _).map Repository.full_name)
    · intro r hr
      have hr2 : r ∈ sortStars (batchedMerge pages maxRepos kws) :=
        List.take_subset maxRepos _ hr
      have hr3 : r ∈ batchedMerge pages maxRepos kws :=
        (sortStars_perm _).mem_iff.mp hr2
      exact (dedupeAux_sublist (joinedResults pages maxRepos kws) []).subset hr3

/-- Witness for C2 with 7 concrete keywords and an empty-result provider:
the batch structure is 6 + 1 and the batch count is the ceiling of 7 over
6. -/
theorem batchedSearch_merge_spec_witness :
    (chunk6 ["a", "b", "c", "d", "e", "f", "g"]).flatten
      = ["a", "b", "c", "d", "e", "f", "g"] ∧
    (chunk6 ["a", "b", "c", "d", "e", "f", "g"]).length = (7 + 5) / 6 := by
  have hb := batchedSearch_merge_spec (fun _ _ => []) 5
    ["a", "b", "c", "d", "e", "f", "g"] (by norm_num)
  exact ⟨hb.2.1, hb.2.2.1⟩
